import Mathlib

/-!
Shallow embedding of `packages/language-service/ivy/utils.ts`.

The file models, faithfully to the TypeScript source:
- span normalization (`toTextSpan`, `getTextSpanOfNode`),
- selector attribution (`getDirectiveMatchesForElementTag`,
  `getDirectiveMatchesForAttribute`, `getDirectiveMatchesForSelector`,
  `difference`, `getAttributes`, `toAttributeString`, `getNodeName`),
- template location (`tsDeclarationSortComparator`,
  `getFirstComponentForTemplateFile`, `getInlineTemplateInfoAtPosition`),
- display-part filtering (`filterAliasImports`).

JavaScript numbers are modelled as `Int`, JS strings as `String`,
JS `Set` of (identity-distinct) directive objects as `Finset` over a
directive record carrying an `id` modelling object identity.
The selector capability (`CssSelector.parse` / `SelectorMatcher`) and the
compiler/type-checking service are external collaborators and are passed
in as explicit parameters, as the spec prescribes.
-/

/-- Mirrors `ts.TextSpan`: a start offset and a length. -/
structure TextSpan where
  start : Int
  length : Int
deriving DecidableEq, Repr

/-- Mirrors `ParseLocation` restricted to the only field `toTextSpan`
reads: the absolute `offset`. -/
structure ParseLocation where
  offset : Int
deriving DecidableEq, Repr

/-- Mirrors `ParseSourceSpan`: a span between two parse locations. -/
structure ParseSourceSpan where
  start : ParseLocation
  «end» : ParseLocation
deriving DecidableEq, Repr

/-- Mirrors `AbsoluteSourceSpan`: raw start and end offsets. -/
structure AbsoluteSourceSpan where
  start : Int
  «end» : Int
deriving DecidableEq, Repr

/-- The argument type of `toTextSpan`: `AbsoluteSourceSpan | ParseSourceSpan`. -/
inductive SourceSpanU where
  | abs (span : AbsoluteSourceSpan)
  | parsed (span : ParseSourceSpan)
deriving DecidableEq, Repr

/-- Embeds `toTextSpan`: an absolute span maps directly, a parsed span maps
via its endpoints' `offset` fields; `length = end - start`. -/
def toTextSpan (span : SourceSpanU) : TextSpan :=
  match span with
  | .abs s => { start := s.start, length := s.«end» - s.start }
  | .parsed s => { start := s.start.offset, length := s.«end».offset - s.start.offset }

/-- The node shapes `getTextSpanOfNode` dispatches on.  Template nodes carry a
`ParseSourceSpan` source span and optionally a `keySpan` (modelling
`hasOwnProperty('keySpan')`); expression nodes carry `AbsoluteSourceSpan`s,
and the four name-carrying variants (`PropertyWrite`, `MethodCall`,
`BindingPipe`, `PropertyRead`) additionally carry a `nameSpan`. -/
inductive Node where
  | templateNode (keySpan : Option ParseSourceSpan) (sourceSpan : ParseSourceSpan)
  | propertyWrite (nameSpan : AbsoluteSourceSpan) (sourceSpan : AbsoluteSourceSpan)
  | methodCall (nameSpan : AbsoluteSourceSpan) (sourceSpan : AbsoluteSourceSpan)
  | bindingPipe (nameSpan : AbsoluteSourceSpan) (sourceSpan : AbsoluteSourceSpan)
  | propertyRead (nameSpan : AbsoluteSourceSpan) (sourceSpan : AbsoluteSourceSpan)
  | otherExpression (sourceSpan : AbsoluteSourceSpan)
deriving DecidableEq, Repr

/-- Embeds `isTemplateNode`: the node's `sourceSpan` is a `ParseSourceSpan`. -/
def isTemplateNode : Node → Bool
  | .templateNode _ _ => true
  | _ => false

/-- Embeds `isTemplateNodeWithKeyAndValue`: a template node that owns a
`keySpan` property. -/
def isTemplateNodeWithKeyAndValue : Node → Bool
  | .templateNode (some _) _ => true
  | _ => false

/-- Embeds `getTextSpanOfNode`: key/value template nodes yield the `keySpan`;
`PropertyWrite`, `MethodCall`, `BindingPipe` and `PropertyRead` yield the
`nameSpan`; every other node yields the `sourceSpan`. -/
def getTextSpanOfNode (node : Node) : TextSpan :=
  match node with
  | .templateNode (some keySpan) _ => toTextSpan (.parsed keySpan)
  | .templateNode none sourceSpan => toTextSpan (.parsed sourceSpan)
  | .propertyWrite nameSpan _ => toTextSpan (.abs nameSpan)
  | .methodCall nameSpan _ => toTextSpan (.abs nameSpan)
  | .bindingPipe nameSpan _ => toTextSpan (.abs nameSpan)
  | .propertyRead nameSpan _ => toTextSpan (.abs nameSpan)
  | .otherExpression sourceSpan => toTextSpan (.abs sourceSpan)

/-- Mirrors `DirectiveSymbol` restricted to what the attribution code reads:
the nullable `selector` string.  `id` models JavaScript object identity, so
that distinct directive objects with equal selectors stay distinct in a
`Set`. -/
structure DirectiveSymbol where
  id : Nat
  selector : Option String
deriving DecidableEq, Repr

/-- Mirrors `t.TextAttribute | t.BoundAttribute` restricted to what the
attribution code reads: the attribute `name`, and the source text of its
`valueSpan` (`valueSpan?.toString()`), absent when the attribute has no
value span. -/
structure AttributeNode where
  name : String
  valueSpan : Option String
deriving DecidableEq, Repr

/-- Mirrors the host-node union `t.Template | t.Element`: an element has a
`name`, static `attributes` and bound `inputs`; a template additionally has
`templateAttrs` and names its tag `tagName`. -/
inductive HostNode where
  | element (name : String) (attributes : List AttributeNode) (inputs : List AttributeNode)
  | template (tagName : String) (attributes : List AttributeNode)
      (inputs : List AttributeNode) (templateAttrs : List AttributeNode)
deriving DecidableEq, Repr

/-- Embeds `toAttributeString`: renders an attribute as
`[name=value]` with `value` the `valueSpan` text or the empty string. -/
def toAttributeString (attr : AttributeNode) : String :=
  "[" ++ attr.name ++ "=" ++ attr.valueSpan.getD "" ++ "]"

/-- Embeds `getNodeName`: `tagName` for templates, `name` for elements. -/
def getNodeName : HostNode → String
  | .template tagName _ _ _ => tagName
  | .element name _ _ => name

/-- Embeds `getAttributes`: static attributes, then inputs, then (for
templates only) the template attributes. -/
def getAttributes : HostNode → List AttributeNode
  | .element _ attributes inputs => attributes ++ inputs
  | .template _ attributes inputs templateAttrs => attributes ++ inputs ++ templateAttrs

/-- Embeds the JavaScript `allAttrs.join('')` concatenation. -/
def joinStrings : List String → String
  | [] => ""
  | s :: rest => s ++ joinStrings rest

/-- Embeds `difference`: all items of `left` that do not appear in `right`. -/
def difference (left right : Finset DirectiveSymbol) : Finset DirectiveSymbol :=
  left.filter (fun dir => dir ∉ right)

/-- The injected selector capability: `parse` embeds `CssSelector.parse`, and
`matcherMatch selectables sel` embeds `matcher.match(sel, null)` on a
`SelectorMatcher` to which `selectables` were added. -/
structure SelectorApi (Sel : Type) where
  parse : String → List Sel
  matcherMatch : List Sel → Sel → Bool

/-- Embeds `getDirectiveMatchesForSelector`: parse the selector text (an
empty parse yields the empty set); keep the directives with a non-null
selector some parsed host selector of which matches the directive's
selectables. -/
def getDirectiveMatchesForSelector {Sel : Type} (api : SelectorApi Sel)
    (directives : List DirectiveSymbol) (selector : String) : Finset DirectiveSymbol :=
  let selectors := api.parse selector
  if selectors.length = 0 then ∅
  else
    (directives.filter (fun dir =>
      match dir.selector with
      | none => false
      | some s => selectors.any (fun sel => api.matcherMatch (api.parse s) sel))).toFinset

/-- Embeds `getDirectiveMatchesForElementTag`: the difference between the
matches for `tagName + serialized attributes` and the matches for the
serialized attributes alone. -/
def getDirectiveMatchesForElementTag {Sel : Type} (api : SelectorApi Sel)
    (element : HostNode) (directives : List DirectiveSymbol) : Finset DirectiveSymbol :=
  let attributes := getAttributes element
  let allAttrs := attributes.map toAttributeString
  let allDirectiveMatches :=
    getDirectiveMatchesForSelector api directives (getNodeName element ++ joinStrings allAttrs)
  let matchesWithoutElement := getDirectiveMatchesForSelector api directives (joinStrings allAttrs)
  difference allDirectiveMatches matchesWithoutElement

/-- Embeds `getDirectiveMatchesForAttribute`: the difference between the
matches for `tagName + serialized attributes` and the matches for the
serialization of the attributes whose name differs from `name` (without the
tag name). -/
def getDirectiveMatchesForAttribute {Sel : Type} (api : SelectorApi Sel)
    (name : String) (hostNode : HostNode) (directives : List DirectiveSymbol) :
    Finset DirectiveSymbol :=
  let attributes := getAttributes hostNode
  let allAttrs := attributes.map toAttributeString
  let allDirectiveMatches :=
    getDirectiveMatchesForSelector api directives (getNodeName hostNode ++ joinStrings allAttrs)
  let attrsExcludingName := (attributes.filter (fun a => a.name != name)).map toAttributeString
  let matchesWithoutAttr :=
    getDirectiveMatchesForSelector api directives (joinStrings attrsExcludingName)
  difference allDirectiveMatches matchesWithoutAttr

/-- Modelled from the spec: the parsed compound selector produced by the
external `CssSelector` class of the compiler package (not under `src/`).
Per the spec's data model a compound selector is an optional element (tag)
name together with attribute predicates, each a name with an optional
required value. -/
structure CssSelector where
  element : Option String
  attrs : List (String × String)
deriving DecidableEq, Repr

/-- Splits a character list on a separator character; always returns at
least one (possibly empty) chunk, like `String.split`. -/
def splitOnChar (c : Char) : List Char → List (List Char)
  | [] => [[]]
  | x :: xs =>
    if x = c then [] :: splitOnChar c xs
    else
      match splitOnChar c xs with
      | [] => [[x]]
      | g :: gs => (x :: g) :: gs

/-- Modelled from the spec: parses one bracketed attribute group
`[name=value]` of a compound selector (external `CssSelector.parse`,
not under `src/`).  A chunk not starting with `[` yields nothing. -/
def parseAttrGroup (cs : List Char) : Option (String × String) :=
  match cs with
  | '[' :: inside =>
    let name := inside.takeWhile (fun ch => ch ≠ '=')
    let value := (inside.dropWhile (fun ch => ch ≠ '=')).drop 1
    some (⟨name⟩, ⟨value⟩)
  | _ => none

/-- Modelled from the spec: parses the attribute-predicate part of a
compound selector by splitting at the closing brackets. -/
def parseAttrs (cs : List Char) : List (String × String) :=
  (splitOnChar ']' cs).filterMap parseAttrGroup

/-- Modelled from the spec: parses one compound selector — an optional
leading tag name followed by bracketed attribute predicates. -/
def parseCompound (cs : List Char) : CssSelector :=
  let element := cs.takeWhile (fun ch => ch ≠ '[')
  let rest := cs.dropWhile (fun ch => ch ≠ '[')
  { element := if element.isEmpty then none else some ⟨element⟩
    attrs := parseAttrs rest }

/-- Modelled from the spec: `CssSelector.parse` (external, not under
`src/`) — parses a selector text into one or more compound selectors,
separated by commas. -/
def CssSelector.parse (selector : String) : List CssSelector :=
  (splitOnChar ',' selector.toList).map parseCompound

/-- Modelled from the spec: the match of one directive compound selector
against one host compound selector (external `SelectorMatcher`, not under
`src/`).  The directive's element must be absent or equal to the host's,
and every attribute predicate of the directive must be satisfied by some
host attribute — name equal, and the required value (when non-empty) equal. -/
def CssSelector.matchAgainst (dirSel hostSel : CssSelector) : Bool :=
  (dirSel.element == none || dirSel.element == hostSel.element) &&
    dirSel.attrs.all (fun a =>
      hostSel.attrs.any (fun b => a.1 == b.1 && (a.2 == "" || a.2 == b.2)))

/-- Modelled from the spec: the selector capability assembled from the
modelled `CssSelector.parse` and `SelectorMatcher` — the matcher reports a
match when any added selectable matches the host selector. -/
def specSelectorApi : SelectorApi CssSelector :=
  { parse := CssSelector.parse
    matcherMatch := fun selectables sel =>
      selectables.any (fun d => CssSelector.matchAgainst d sel) }

/-- Mirrors `ts.Declaration` restricted to what the locator reads:
the declaring file name, `pos` (the full start, `getFullStart()`), `end`,
whether `ts.isClassDeclaration` holds, and an `id` modelling object
identity. -/
structure Declaration where
  fileName : String
  pos : Int
  «end» : Int
  isClass : Bool
  id : Nat
deriving DecidableEq, Repr

/-- Mirrors a source file: its top-level `statements`. -/
structure SourceFile where
  fileName : String
  statements : List Declaration
deriving DecidableEq, Repr

/-- The result type `TemplateInfo`: template nodes plus owning component. -/
structure TemplateInfo where
  template : List Node
  component : Declaration
deriving DecidableEq, Repr

/-- The injected compiler/type-checking service, restricted to the three
lookups the locator performs: `getTemplateTypeChecker().getTemplate`,
`getComponentsWithTemplateFile`, and `getNextProgram().getSourceFile`. -/
structure NgCompiler where
  getTemplate : Declaration → Option (List Node)
  getComponentsWithTemplateFile : String → List Declaration
  getSourceFile : String → Option SourceFile

/-- Embeds `tsDeclarationSortComparator`: compare by file name first, and
within the same file by `b.getFullStart() - a.getFullStart()`. -/
def tsDeclarationSortComparator (a b : Declaration) : Int :=
  if a.fileName < b.fileName then -1
  else if b.fileName < a.fileName then 1
  else b.pos - a.pos

/-- Embeds the `for` loop of `getFirstComponentForTemplateFile`: skip
non-class declarations and declarations with a null template; return the
first remaining declaration with its template. -/
def findFirstTemplate (getTemplate : Declaration → Option (List Node)) :
    List Declaration → Option TemplateInfo
  | [] => none
  | component :: rest =>
    if !component.isClass then findFirstTemplate getTemplate rest
    else
      match getTemplate component with
      | none => findFirstTemplate getTemplate rest
      | some template => some ⟨template, component⟩

/-- Embeds `getFirstComponentForTemplateFile`: sort the components
associated with the template file with `tsDeclarationSortComparator`
(`Array.prototype.sort` is modelled by the stable `List.mergeSort` run with
the comparator's "not greater" relation), then scan for the first class
declaration with a template. -/
def getFirstComponentForTemplateFile (fileName : String) (compiler : NgCompiler) :
    Option TemplateInfo :=
  let components := compiler.getComponentsWithTemplateFile fileName
  let sortedComponents :=
    components.mergeSort (fun a b => tsDeclarationSortComparator a b ≤ 0)
  findFirstTemplate compiler.getTemplate sortedComponents

/-- Embeds the `for` loop of `getInlineTemplateInfoAtPosition`: skip
statements that are not class declarations or do not contain the position;
for the first one that does, a null template means an immediate
not-found. -/
def findInlineTemplate (compiler : NgCompiler) (position : Int) :
    List Declaration → Option TemplateInfo
  | [] => none
  | statement :: rest =>
    if !statement.isClass || position < statement.pos || position > statement.«end» then
      findInlineTemplate compiler position rest
    else
      match compiler.getTemplate statement with
      | none => none
      | some template => some ⟨template, statement⟩

/-- Embeds `getInlineTemplateInfoAtPosition`: look up the source file and
scan its top-level statements. -/
def getInlineTemplateInfoAtPosition (fileName : String) (position : Int)
    (compiler : NgCompiler) : Option TemplateInfo :=
  match compiler.getSourceFile fileName with
  | none => none
  | some sourceFile => findInlineTemplate compiler position sourceFile.statements

/-- Embeds `getTemplateInfoAtPosition`: inline mode for `.ts` files,
external mode otherwise. -/
def getTemplateInfoAtPosition (fileName : String) (position : Int)
    (compiler : NgCompiler) : Option TemplateInfo :=
  if fileName.endsWith ".ts" then getInlineTemplateInfoAtPosition fileName position compiler
  else getFirstComponentForTemplateFile fileName compiler

/-- Modelled from the spec: the `ALIAS_NAME` display-part kind exported by
`../common/quick_info` (not under `src/`). -/
def ALIAS_NAME : String := "aliasName"

/-- Modelled from the spec: the `SYMBOL_PUNC` display-part kind exported by
`../common/quick_info` (not under `src/`). -/
def SYMBOL_PUNC : String := "punctuation"

/-- Mirrors `ts.SymbolDisplayPart`: a `kind` and a `text`. -/
structure SymbolDisplayPart where
  kind : String
  text : String
deriving DecidableEq, Repr

/-- Embeds the unanchored regex test `/i\d+/.test(text)`: some occurrence
of the character `i` immediately followed by a digit. -/
def tcbAliasImportTest : List Char → Bool
  | [] => false
  | c :: rest =>
    (c == 'i' &&
      match rest with
      | d :: _ => d.isDigit
      | [] => false) ||
    tcbAliasImportTest rest

/-- Embeds `isImportAlias`: kind `ALIAS_NAME` and text matching `/i\d+/`. -/
def isImportAlias (part : SymbolDisplayPart) : Bool :=
  part.kind == ALIAS_NAME && tcbAliasImportTest part.text.toList

/-- Embeds `isDotPunctuation`: kind `SYMBOL_PUNC` and text `"."`. -/
def isDotPunctuation (part : SymbolDisplayPart) : Bool :=
  part.kind == SYMBOL_PUNC && part.text == "."

/-- Embeds the filter callback of `filterAliasImports` at index `i`:
keep the part unless it is an import alias immediately followed by a dot,
or a dot immediately preceded by an import alias (JavaScript indexing
yields `undefined` before the first and after the last element). -/
def keepDisplayPart (displayParts : List SymbolDisplayPart) (i : Nat)
    (part : SymbolDisplayPart) : Bool :=
  let previousPart := if i = 0 then none else displayParts.get? (i - 1)
  let nextPart := displayParts.get? (i + 1)
  let aliasNameFollowedByDot :=
    isImportAlias part &&
      match nextPart with
      | some np => isDotPunctuation np
      | none => false
  let dotPrecededByAlias :=
    isDotPunctuation part &&
      match previousPart with
      | some pp => isImportAlias pp
      | none => false
  !aliasNameFollowedByDot && !dotPrecededByAlias

/-- Embeds `filterAliasImports`: the index-aware filter over the display
parts. -/
def filterAliasImports (displayParts : List SymbolDisplayPart) :
    List SymbolDisplayPart :=
  (displayParts.enum.filter (fun q => keepDisplayPart displayParts q.1 q.2)).map
    (fun q => q.2)

/-- Embeds `flatMap`: apply `f` to each item and flatten one level. -/
def flatMap {T R : Type} (items : List T) (f : T → List R) : List R :=
  match items with
  | [] => []
  | x :: xs => f x ++ flatMap xs f

/-- A directive that belongs to a match set computed by
`getDirectiveMatchesForSelector` has a non-null selector. -/
theorem selector_ne_none_of_mem_matches {Sel : Type} (api : SelectorApi Sel)
    (directives : List DirectiveSymbol) (selector : String) (d : DirectiveSymbol)
    (hd : d ∈ getDirectiveMatchesForSelector api directives selector) :
    d.selector ≠ none := by
  simp only [getDirectiveMatchesForSelector] at hd
  split at hd
  · simp at hd
  · rw [List.mem_toFinset, List.mem_filter] at hd
    intro hnone
    rw [hnone] at hd
    simp at hd

/-- Membership in `difference` is membership in the left set together with
absence from the right set. -/
theorem mem_difference {d : DirectiveSymbol} {left right : Finset DirectiveSymbol} :
    d ∈ difference left right ↔ d ∈ left ∧ d ∉ right := by
  unfold difference
  exact Finset.mem_filter

/-- C1: for every selector capability, host element or template and
candidate list, `getDirectiveMatchesForElementTag` equals the set
difference of the directives matching the compound selector
`tagName + serialized attributes` and the directives matching the
serialized attributes alone; consequently the result never contains a
directive that also matches with the tag name stripped. -/
theorem spec_c1_tag_attribution {Sel : Type} (api : SelectorApi Sel)
    (host : HostNode) (directives : List DirectiveSymbol) :
    getDirectiveMatchesForElementTag api host directives =
      difference
        (getDirectiveMatchesForSelector api directives
          (getNodeName host ++ joinStrings ((getAttributes host).map toAttributeString)))
        (getDirectiveMatchesForSelector api directives
          (joinStrings ((getAttributes host).map toAttributeString))) ∧
    ∀ d ∈ getDirectiveMatchesForElementTag api host directives,
      d ∉ getDirectiveMatchesForSelector api directives
        (joinStrings ((getAttributes host).map toAttributeString)) := by
  refine ⟨rfl, ?_⟩
  intro d hd
  exact (mem_difference.mp hd).2

/-- Witness for C1 on the spec example `<div myAttr [foo]="x">`: the
directive with selector `div[myAttr]` is attributed to the tag, and it
indeed does not match with the tag name stripped. -/
theorem spec_c1_tag_attribution_witness :
    (⟨0, some "div[myAttr]"⟩ : DirectiveSymbol) ∈
      getDirectiveMatchesForElementTag specSelectorApi
        (.element "div" [⟨"myAttr", none⟩] [⟨"foo", some "x"⟩])
        [⟨0, some "div[myAttr]"⟩, ⟨1, some "[myAttr]"⟩, ⟨2, some "[foo]"⟩] ∧
    (⟨0, some "div[myAttr]"⟩ : DirectiveSymbol) ∉
      getDirectiveMatchesForSelector specSelectorApi
        [⟨0, some "div[myAttr]"⟩, ⟨1, some "[myAttr]"⟩, ⟨2, some "[foo]"⟩]
        (joinStrings
          ((getAttributes (.element "div" [⟨"myAttr", none⟩] [⟨"foo", some "x"⟩])).map
            toAttributeString)) :=
  ⟨by decide,
    (spec_c1_tag_attribution specSelectorApi
      (.element "div" [⟨"myAttr", none⟩] [⟨"foo", some "x"⟩])
      [⟨0, some "div[myAttr]"⟩, ⟨1, some "[myAttr]"⟩, ⟨2, some "[foo]"⟩]).2
      ⟨0, some "div[myAttr]"⟩ (by decide)⟩

/-- C3: for every selector capability, attribute name, host node and
candidate list, `getDirectiveMatchesForAttribute` equals the set difference
of the directives matching `tagName + serialize(allAttributes)` and the
directives matching the serialization, without the tag name, of the
attributes whose name differs from the given one; attributes serialize as
`[name=value]` with the value text or the empty string, in the order
static attributes, bound attributes, then (for templates) template
attributes. -/
theorem spec_c3_attribute_attribution {Sel : Type} (api : SelectorApi Sel)
    (name : String) (hostNode : HostNode) (directives : List DirectiveSymbol) :
    (getDirectiveMatchesForAttribute api name hostNode directives =
      difference
        (getDirectiveMatchesForSelector api directives
          (getNodeName hostNode ++
            joinStrings ((getAttributes hostNode).map toAttributeString)))
        (getDirectiveMatchesForSelector api directives
          (joinStrings
            (((getAttributes hostNode).filter (fun a => a.name != name)).map
              toAttributeString)))) ∧
    (∀ a : AttributeNode,
      toAttributeString a = "[" ++ a.name ++ "=" ++ a.valueSpan.getD "" ++ "]") ∧
    (∀ (tagName : String) (attrs inputs templateAttrs : List AttributeNode),
      getAttributes (.template tagName attrs inputs templateAttrs) =
        attrs ++ inputs ++ templateAttrs) ∧
    (∀ (n : String) (attrs inputs : List AttributeNode),
      getAttributes (.element n attrs inputs) = attrs ++ inputs) :=
  ⟨rfl, fun _ => rfl, fun _ _ _ _ => rfl, fun _ _ _ => rfl⟩

/-- C5: `getTextSpanOfNode` returns the normalized `keySpan` for template
nodes exposing one; otherwise the normalized `nameSpan` for
`PropertyWrite`, `MethodCall`, `BindingPipe` and `PropertyRead` expression
nodes; and the normalized `sourceSpan` for every other node. -/
theorem spec_c5_span_priority :
    (∀ (keySpan sourceSpan : ParseSourceSpan),
      getTextSpanOfNode (.templateNode (some keySpan) sourceSpan) =
        toTextSpan (.parsed keySpan)) ∧
    (∀ (nameSpan sourceSpan : AbsoluteSourceSpan),
      getTextSpanOfNode (.propertyWrite nameSpan sourceSpan) = toTextSpan (.abs nameSpan) ∧
      getTextSpanOfNode (.methodCall nameSpan sourceSpan) = toTextSpan (.abs nameSpan) ∧
      getTextSpanOfNode (.bindingPipe nameSpan sourceSpan) = toTextSpan (.abs nameSpan) ∧
      getTextSpanOfNode (.propertyRead nameSpan sourceSpan) = toTextSpan (.abs nameSpan)) ∧
    (∀ sourceSpan : ParseSourceSpan,
      getTextSpanOfNode (.templateNode none sourceSpan) = toTextSpan (.parsed sourceSpan)) ∧
    (∀ sourceSpan : AbsoluteSourceSpan,
      getTextSpanOfNode (.otherExpression sourceSpan) = toTextSpan (.abs sourceSpan)) :=
  ⟨fun _ _ => rfl, fun _ _ => ⟨rfl, rfl, rfl, rfl⟩, fun _ => rfl, fun _ => rfl⟩

/-- C7: `toTextSpan` maps an absolute span directly to
`{start, length = end - start}` and a parsed span via its endpoints'
offsets; for every well-formed span (start at most end) the length is
non-negative, and a zero-length span yields a zero-length `TextSpan`. -/
theorem spec_c7_to_text_span :
    (∀ s e : Int, toTextSpan (.abs ⟨s, e⟩) = ⟨s, e - s⟩) ∧
    (∀ s e : Int, toTextSpan (.parsed ⟨⟨s⟩, ⟨e⟩⟩) = ⟨s, e - s⟩) ∧
    (∀ s e : Int, s ≤ e →
      0 ≤ (toTextSpan (.abs ⟨s, e⟩)).length ∧
      0 ≤ (toTextSpan (.parsed ⟨⟨s⟩, ⟨e⟩⟩)).length) ∧
    (∀ s : Int,
      (toTextSpan (.abs ⟨s, s⟩)).length = 0 ∧
      (toTextSpan (.parsed ⟨⟨s⟩, ⟨s⟩⟩)).length = 0) := by
  refine ⟨fun _ _ => rfl, fun _ _ => rfl, ?_, ?_⟩
  · intro s e h
    constructor <;> simpa [toTextSpan] using h
  · intro s
    constructor <;> simp [toTextSpan]

/-- Witness for C7 at concrete spans: a proper span keeps a non-negative
length and an empty span stays empty. -/
theorem spec_c7_to_text_span_witness :
    0 ≤ (toTextSpan (.abs ⟨2, 5⟩)).length ∧
    (toTextSpan (.parsed ⟨⟨3⟩, ⟨3⟩⟩)).length = 0 :=
  ⟨(spec_c7_to_text_span.2.2.1 2 5 (by decide)).1, (spec_c7_to_text_span.2.2.2 3).2⟩

/-- The embedded `/i\d+/` test succeeds exactly when the text contains the
character `i` immediately followed by a digit. -/
theorem tcbAliasImportTest_iff (cs : List Char) :
    tcbAliasImportTest cs = true ↔
      ∃ l r d, cs = l ++ 'i' :: d :: r ∧ d.isDigit = true := by
  induction cs with
  | nil =>
    simp [tcbAliasImportTest]
  | cons c rest ih =>
    simp only [tcbAliasImportTest, Bool.or_eq_true, Bool.and_eq_true, beq_iff_eq]
    constructor
    · rintro (⟨hc, hdig⟩ | htail)
      · cases rest with
        | nil => simp at hdig
        | cons d rest2 => exact ⟨[], rest2, d, by simp [hc], hdig⟩
      · obtain ⟨l, r, d, hcs, hd⟩ := ih.mp htail
        exact ⟨c :: l, r, d, by simp [hcs], hd⟩
    · rintro ⟨l, r, d, hcs, hd⟩
      cases l with
      | nil =>
        simp only [List.nil_append, List.cons.injEq] at hcs
        obtain ⟨hc, hrest⟩ := hcs
        left
        refine ⟨hc, ?_⟩
        rw [hrest]
        exact hd
      | cons x l2 =>
        simp only [List.cons_append, List.cons.injEq] at hcs
        obtain ⟨_, hrest⟩ := hcs
        right
        exact ih.mpr ⟨l2, r, d, hrest, hd⟩

/-- `isImportAlias` characterized: kind `ALIAS_NAME` and a substring of the
form `i` followed by a digit somewhere in the text. -/
theorem isImportAlias_iff (part : SymbolDisplayPart) :
    isImportAlias part = true ↔
      (part.kind = ALIAS_NAME ∧
        ∃ l r d, part.text.toList = l ++ 'i' :: d :: r ∧ d.isDigit = true) := by
  unfold isImportAlias
  rw [Bool.and_eq_true, beq_iff_eq, tcbAliasImportTest_iff]

/-- C9: `filterAliasImports` is the single-pass local filter over the
indexed display parts; surviving elements pass through unchanged in order
(the output is a sublist of the input); an element is suppressed exactly
when it is a generated-alias name immediately followed by a `.`
punctuation, or a `.` punctuation immediately preceded by a generated-alias
name; `[alias-name "i0", punc "."]` collapses to the empty sequence and
`[alias-name "i0"]` alone is returned unchanged. -/
theorem spec_c9_filter_alias_imports :
    (∀ parts : List SymbolDisplayPart,
      filterAliasImports parts =
        (parts.enum.filter (fun q => keepDisplayPart parts q.1 q.2)).map (fun q => q.2)) ∧
    (∀ parts : List SymbolDisplayPart, (filterAliasImports parts).Sublist parts) ∧
    (∀ (parts : List SymbolDisplayPart) (i : Nat) (part : SymbolDisplayPart),
      keepDisplayPart parts i part = false ↔
        (isImportAlias part = true ∧
          ∃ np, parts.get? (i + 1) = some np ∧ isDotPunctuation np = true) ∨
        (isDotPunctuation part = true ∧
          ∃ pp, 1 ≤ i ∧ parts.get? (i - 1) = some pp ∧ isImportAlias pp = true)) ∧
    filterAliasImports [⟨ALIAS_NAME, "i0"⟩, ⟨SYMBOL_PUNC, "."⟩] = [] ∧
    filterAliasImports [⟨ALIAS_NAME, "i0"⟩] = [⟨ALIAS_NAME, "i0"⟩] := by
  refine ⟨fun _ => rfl, ?_, ?_, by decide, by decide⟩
  · intro parts
    have h1 : (parts.enum.filter (fun q => keepDisplayPart parts q.1 q.2)).Sublist
        parts.enum := List.filter_sublist _
    have h2 := h1.map Prod.snd
    rw [List.enum_map_snd] at h2
    exact h2
  · intro parts i part
    simp only [keepDisplayPart]
    by_cases hi : i = 0
    · subst hi
      cases hnext : parts.get? 1 with
      | none => simp [hnext]
      | some np => simp [hnext]
    · have h1i : 1 ≤ i := Nat.one_le_iff_ne_zero.mpr hi
      cases hnext : parts.get? (i + 1) with
      | none =>
        cases hprev : parts.get? (i - 1) with
        | none => simp [hnext, hprev, hi]
        | some pp => simp [hnext, hprev, hi, h1i]
      | some np =>
        cases hprev : parts.get? (i - 1) with
        | none => simp [hnext, hprev, hi]
        | some pp =>
          simp only [hnext, hprev, hi, h1i]
          cases ha : isImportAlias part <;> cases hb : isDotPunctuation np <;>
            cases hc : isDotPunctuation part <;> cases hd : isImportAlias pp <;>
            simp [ha, hb, hc, hd, h1i]

/-- Counterexample to C10 as stated: the text `min0` has no `i` followed
immediately by a digit, so `/i\d+/` does not match and the alias-name part
and its dot survive `filterAliasImports` unchanged. -/
theorem spec_c10_counterexample :
    filterAliasImports [⟨ALIAS_NAME, "min0"⟩, ⟨SYMBOL_PUNC, "."⟩] =
      [⟨ALIAS_NAME, "min0"⟩, ⟨SYMBOL_PUNC, "."⟩] := by decide

/-- C10 (amended): a display part is classified as a generated alias
exactly when its kind is `ALIAS_NAME` and its text contains, anywhere, the
character `i` immediately followed by a digit (the regex is unanchored);
hence an alias-name part whose text merely contains such a substring
(e.g. `mi0n`) followed by a `.` punctuation is also removed, not only
parts whose entire text has the form `i<digits>`. -/
theorem spec_c10_alias_classification :
    (∀ part : SymbolDisplayPart,
      isImportAlias part = true ↔
        (part.kind = ALIAS_NAME ∧
          ∃ l r d, part.text.toList = l ++ 'i' :: d :: r ∧ d.isDigit = true)) ∧
    filterAliasImports [⟨ALIAS_NAME, "mi0n"⟩, ⟨SYMBOL_PUNC, "."⟩] = [] :=
  ⟨isImportAlias_iff, by decide⟩

/-- The inline scan returns `none` for a statement list whose first
class declaration containing the position has a null template. -/
theorem findInlineTemplate_append_none (compiler : NgCompiler) (position : Int)
    (pre post : List Declaration) (s : Declaration)
    (hpre : ∀ x ∈ pre, x.isClass = false ∨ position < x.pos ∨ position > x.«end»)
    (hclass : s.isClass = true) (hlo : s.pos ≤ position) (hhi : position ≤ s.«end»)
    (hnull : compiler.getTemplate s = none) :
    findInlineTemplate compiler position (pre ++ s :: post) = none := by
  induction pre with
  | nil =>
    simp only [List.nil_append, findInlineTemplate]
    rw [if_neg, hnull]
    simp [hclass, not_lt.mpr hlo, not_lt.mpr hhi]
  | cons x pre2 ih =>
    simp only [List.cons_append, findInlineTemplate]
    rw [if_pos]
    · exact ih (fun y hy => hpre y (List.mem_cons_of_mem x hy))
    · rcases hpre x (List.mem_cons_self x _) with h | h | h <;> simp [h]

/-- C6: in inline mode, when the offset lies within a top-level class
declaration (and within no earlier one) and the type-checking service
reports a null template for it, the locator returns not-found immediately,
without continuing to later declarations. -/
theorem spec_c6_inline_null_template (compiler : NgCompiler) (fileName : String)
    (position : Int) (sourceFile : SourceFile) (pre post : List Declaration)
    (s : Declaration)
    (hfile : compiler.getSourceFile fileName = some sourceFile)
    (hstmts : sourceFile.statements = pre ++ s :: post)
    (hpre : ∀ x ∈ pre, x.isClass = false ∨ position < x.pos ∨ position > x.«end»)
    (hclass : s.isClass = true) (hlo : s.pos ≤ position) (hhi : position ≤ s.«end»)
    (hnull : compiler.getTemplate s = none) :
    getInlineTemplateInfoAtPosition fileName position compiler = none := by
  unfold getInlineTemplateInfoAtPosition
  rw [hfile]
  show findInlineTemplate compiler position sourceFile.statements = none
  rw [hstmts]
  exact findInlineTemplate_append_none compiler position pre post s hpre hclass hlo hhi hnull

/-- Witness for C6: the position 5 lies in the class declaration with a
null template, and the locator answers not-found even though a later
declaration at the same position carries a template. -/
theorem spec_c6_inline_null_template_witness :
    getInlineTemplateInfoAtPosition "app.ts" 5
      { getTemplate := fun d => if d.id = 1 then some [] else none
        getComponentsWithTemplateFile := fun _ => []
        getSourceFile := fun _ =>
          some ⟨"app.ts", [⟨"app.ts", 0, 10, true, 0⟩, ⟨"app.ts", 0, 10, true, 1⟩]⟩ } =
      none :=
  spec_c6_inline_null_template _ "app.ts" 5
    ⟨"app.ts", [⟨"app.ts", 0, 10, true, 0⟩, ⟨"app.ts", 0, 10, true, 1⟩]⟩
    [] [⟨"app.ts", 0, 10, true, 1⟩] ⟨"app.ts", 0, 10, true, 0⟩
    rfl rfl (by simp) rfl (by decide) (by decide) (by decide)

/-- C8: a directive whose selector is null is never present in the result
of tag attribution or attribute attribution, for any selector capability,
host node, attribute name and candidate list. -/
theorem spec_c8_null_selector {Sel : Type} (api : SelectorApi Sel) (name : String)
    (host : HostNode) (directives : List DirectiveSymbol) (d : DirectiveSymbol) :
    (d ∈ getDirectiveMatchesForElementTag api host directives → d.selector ≠ none) ∧
    (d ∈ getDirectiveMatchesForAttribute api name host directives → d.selector ≠ none) := by
  constructor
  · intro hd
    exact selector_ne_none_of_mem_matches api directives _ d (mem_difference.mp hd).1
  · intro hd
    exact selector_ne_none_of_mem_matches api directives _ d (mem_difference.mp hd).1

/-- Witness for C8 on the spec example: two directives present in the
attribution results, both with non-null selectors. -/
theorem spec_c8_null_selector_witness :
    (⟨0, some "div[myAttr]"⟩ : DirectiveSymbol).selector ≠ none ∧
    (⟨1, some "[myAttr]"⟩ : DirectiveSymbol).selector ≠ none :=
  ⟨(spec_c8_null_selector specSelectorApi "myAttr"
      (.element "div" [⟨"myAttr", none⟩] [⟨"foo", some "x"⟩])
      [⟨0, some "div[myAttr]"⟩, ⟨1, some "[myAttr]"⟩, ⟨2, some "[foo]"⟩]
      ⟨0, some "div[myAttr]"⟩).1 (by decide),
    (spec_c8_null_selector specSelectorApi "myAttr"
      (.element "div" [⟨"myAttr", none⟩] [⟨"foo", some "x"⟩])
      [⟨0, some "div[myAttr]"⟩, ⟨1, some "[myAttr]"⟩, ⟨2, some "[foo]"⟩]
      ⟨1, some "[myAttr]"⟩).2 (by decide)⟩

/-- The comparator is non-positive exactly for the lexicographic order on
file name ascending and full start descending (with ties allowed). -/
theorem tsDeclarationSortComparator_le_zero (a b : Declaration) :
    tsDeclarationSortComparator a b ≤ 0 ↔
      a.fileName < b.fileName ∨ (a.fileName = b.fileName ∧ b.pos ≤ a.pos) := by
  unfold tsDeclarationSortComparator
  rcases lt_trichotomy a.fileName b.fileName with h | h | h
  · rw [if_pos h]
    simp [h]
  · rw [if_neg (by rw [h]; exact lt_irrefl _), if_neg (by rw [h]; exact lt_irrefl _)]
    rw [sub_nonpos]
    constructor
    · intro hle
      exact Or.inr ⟨h, hle⟩
    · rintro (hlt | ⟨_, hle⟩)
      · exact absurd hlt (by rw [h]; exact lt_irrefl _)
      · exact hle
  · rw [if_neg (not_lt.mpr (le_of_lt h)), if_pos h]
    constructor
    · intro h1
      norm_num at h1
    · rintro (hlt | ⟨heq, _⟩)
      · exact absurd hlt (not_lt.mpr (le_of_lt h))
      · exact absurd heq (ne_of_gt h)

/-- The comparator's non-positive relation is transitive. -/
theorem tsDeclarationSortComparator_trans (a b c : Declaration)
    (hab : tsDeclarationSortComparator a b ≤ 0)
    (hbc : tsDeclarationSortComparator b c ≤ 0) :
    tsDeclarationSortComparator a c ≤ 0 := by
  rw [tsDeclarationSortComparator_le_zero] at *
  rcases hab with h1 | ⟨h1, p1⟩ <;> rcases hbc with h2 | ⟨h2, p2⟩
  · exact Or.inl (lt_trans h1 h2)
  · exact Or.inl (h2 ▸ h1)
  · exact Or.inl (h1 ▸ h2)
  · exact Or.inr ⟨h1.trans h2, le_trans p2 p1⟩

/-- The comparator's non-positive relation is total. -/
theorem tsDeclarationSortComparator_total (a b : Declaration) :
    tsDeclarationSortComparator a b ≤ 0 ∨ tsDeclarationSortComparator b a ≤ 0 := by
  rw [tsDeclarationSortComparator_le_zero, tsDeclarationSortComparator_le_zero]
  rcases lt_trichotomy a.fileName b.fileName with h | h | h
  · exact Or.inl (Or.inl h)
  · rcases le_total b.pos a.pos with hp | hp
    · exact Or.inl (Or.inr ⟨h, hp⟩)
    · exact Or.inr (Or.inr ⟨h.symm, hp⟩)
  · exact Or.inr (Or.inl h)

/-- The scan loop of `getFirstComponentForTemplateFile` is the first
`some` of class declarations' templates along the list. -/
theorem findFirstTemplate_eq_findSome (g : Declaration → Option (List Node))
    (l : List Declaration) :
    findFirstTemplate g l =
      l.findSome? (fun c => if c.isClass then (g c).map (fun t => ⟨t, c⟩) else none) := by
  induction l with
  | nil => rfl
  | cons c rest ih =>
    cases hc : c.isClass with
    | false => simp [findFirstTemplate, List.findSome?_cons, hc, ih]
    | true =>
      cases hg : g c with
      | none => simp [findFirstTemplate, List.findSome?_cons, hc, hg, ih]
      | some t => simp [findFirstTemplate, List.findSome?_cons, hc, hg]

/-- A list prefix all of whose elements satisfy the predicate is kept
whole by `takeWhile`. -/
theorem takeWhile_append_all {α : Type} (p : α → Bool) (t s : List α)
    (h : ∀ x ∈ t, p x = true) :
    (t ++ s).takeWhile p = t ++ s.takeWhile p := by
  induction t with
  | nil => simp
  | cons x t2 ih =>
    simp only [List.cons_append, List.takeWhile_cons]
    rw [h x (List.mem_cons_self x t2)]
    simp [ih (fun y hy => h y (List.mem_cons_of_mem x hy))]

/-- A list prefix all of whose elements satisfy the predicate is dropped
whole by `dropWhile`. -/
theorem dropWhile_append_all {α : Type} (p : α → Bool) (t s : List α)
    (h : ∀ x ∈ t, p x = true) :
    (t ++ s).dropWhile p = s.dropWhile p := by
  induction t with
  | nil => simp
  | cons x t2 ih =>
    simp only [List.cons_append, List.dropWhile_cons]
    rw [h x (List.mem_cons_self x t2)]
    simpa using ih (fun y hy => h y (List.mem_cons_of_mem x hy))

/-- `splitOnChar` always yields at least one chunk. -/
theorem splitOnChar_exists_cons (c : Char) (l : List Char) :
    ∃ g gs, splitOnChar c l = g :: gs := by
  induction l with
  | nil => exact ⟨[], [], rfl⟩
  | cons x xs ih =>
    by_cases hx : x = c
    · exact ⟨[], splitOnChar c xs, by simp [splitOnChar, hx]⟩
    · obtain ⟨g, gs, hgs⟩ := ih
      exact ⟨x :: g, gs, by simp [splitOnChar, hx, hgs]⟩

/-- Prepending separator-free characters extends the first chunk of
`splitOnChar` and leaves the remaining chunks unchanged. -/
theorem splitOnChar_append_left (c : Char) (t s : List Char) (h : c ∉ t)
    (g : List Char) (gs : List (List Char)) (hs : splitOnChar c s = g :: gs) :
    splitOnChar c (t ++ s) = (t ++ g) :: gs := by
  induction t with
  | nil => simpa using hs
  | cons x t2 ih =>
    have hx : ¬x = c := fun hx => h (hx ▸ List.mem_cons_self x t2)
    have ih2 := ih (fun hmem => h (List.mem_cons_of_mem x hmem))
    simp [splitOnChar, hx, ih2]

/-- A character list containing no separator is a single chunk. -/
theorem splitOnChar_no_sep (c : Char) (t : List Char) (h : c ∉ t) :
    splitOnChar c t = [t] := by
  have := splitOnChar_append_left c t [] h [] [] rfl
  simpa using this

/-- Shape of `CssSelector.parse` on a host string `tag ++ serialized`: when
the serialized part is empty or starts with `[` and the tag contains no
comma and no bracket, the parses of the string with and without the tag
differ only in the element of the first compound; the attribute predicates
and the remaining compounds coincide. -/
theorem css_parse_head (t s : String) (h1 : ',' ∉ t.toList) (h2 : '[' ∉ t.toList)
    (hs : s.toList = [] ∨ ∃ tail, s.toList = '[' :: tail) :
    ∃ (A : List (String × String)) (srest : List CssSelector) (e : Option String),
      CssSelector.parse s = ⟨none, A⟩ :: srest ∧
      CssSelector.parse (t ++ s) = ⟨e, A⟩ :: srest := by
  have hdata : (t ++ s).toList = t.toList ++ s.toList := String.data_append t s
  have hall : ∀ x ∈ t.toList, (fun ch => decide (ch ≠ '[')) x = true :=
    fun x hx => decide_eq_true (fun (he : x = '[') => h2 (he ▸ hx))
  have htake : List.takeWhile (fun ch => decide (ch ≠ '[')) t.toList = t.toList := by
    have := takeWhile_append_all (fun ch => decide (ch ≠ '[')) t.toList [] hall
    simpa using this
  have hdrop : List.dropWhile (fun ch => decide (ch ≠ '[')) t.toList = [] := by
    have := dropWhile_append_all (fun ch => decide (ch ≠ '[')) t.toList [] hall
    simpa using this
  rcases hs with hnil | ⟨tail, htail⟩
  · refine ⟨[], [], if t.toList.isEmpty then none else some ⟨t.toList⟩, ?_, ?_⟩
    · unfold CssSelector.parse
      rw [hnil]
      rfl
    · unfold CssSelector.parse
      rw [hdata, hnil, List.append_nil, splitOnChar_no_sep ',' t.toList h1]
      simp only [List.map_cons, List.map_nil]
      unfold parseCompound
      rw [htake, hdrop]
      rfl
  · obtain ⟨g, gs, hsplit⟩ := splitOnChar_exists_cons ',' tail
    have hsplits : splitOnChar ',' ('[' :: tail) = ('[' :: g) :: gs := by
      simp [splitOnChar, hsplit]
    refine ⟨parseAttrs ('[' :: g), gs.map parseCompound,
      if t.toList.isEmpty then none else some ⟨t.toList⟩, ?_, ?_⟩
    · unfold CssSelector.parse
      rw [htail, hsplits]
      simp only [List.map_cons]
      rfl
    · unfold CssSelector.parse
      rw [hdata, htail,
        splitOnChar_append_left ',' t.toList ('[' :: tail) h1 ('[' :: g) gs hsplits]
      simp only [List.map_cons]
      congr 1
      unfold parseCompound
      rw [takeWhile_append_all _ t.toList ('[' :: g) hall,
        dropWhile_append_all _ t.toList ('[' :: g) hall]
      simp

/-- A directive compound selector that matches an element-less host
compound also matches the same host compound with any element added. -/
theorem matchAgainst_mono (d : CssSelector) (e : Option String)
    (A : List (String × String))
    (h : CssSelector.matchAgainst d ⟨none, A⟩ = true) :
    CssSelector.matchAgainst d ⟨e, A⟩ = true := by
  unfold CssSelector.matchAgainst at h ⊢
  simp only [Bool.and_eq_true, Bool.or_eq_true, beq_iff_eq] at h ⊢
  obtain ⟨he, hattrs⟩ := h
  refine ⟨Or.inl ?_, hattrs⟩
  rcases he with h | h
  · exact h
  · exact h

/-- The modelled matcher is monotone in the host element. -/
theorem matcherMatch_mono (selectables : List CssSelector) (e : Option String)
    (A : List (String × String))
    (h : specSelectorApi.matcherMatch selectables ⟨none, A⟩ = true) :
    specSelectorApi.matcherMatch selectables ⟨e, A⟩ = true := by
  simp only [specSelectorApi, List.any_eq_true] at h ⊢
  obtain ⟨d, hd, hm⟩ := h
  exact ⟨d, hd, matchAgainst_mono d e A hm⟩

/-- Every directive matching the attributes-only host string also matches
the host string with the tag name prepended, for tag names free of commas
and brackets and serialized-attribute strings that are empty or start with
a bracket. -/
theorem matches_subset_of_tag (t s : String) (h1 : ',' ∉ t.toList)
    (h2 : '[' ∉ t.toList) (hs : s.toList = [] ∨ ∃ tail, s.toList = '[' :: tail)
    (directives : List DirectiveSymbol) :
    getDirectiveMatchesForSelector specSelectorApi directives s ⊆
      getDirectiveMatchesForSelector specSelectorApi directives (t ++ s) := by
  obtain ⟨A, srest, e, hp1, hp2⟩ := css_parse_head t s h1 h2 hs
  intro d hd
  simp only [getDirectiveMatchesForSelector] at hd ⊢
  rw [show specSelectorApi.parse s = CssSelector.parse s from rfl, hp1] at hd
  rw [show specSelectorApi.parse (t ++ s) = CssSelector.parse (t ++ s) from rfl, hp2]
  rw [if_neg (by simp)] at hd
  rw [if_neg (by simp)]
  rw [List.mem_toFinset, List.mem_filter] at hd ⊢
  refine ⟨hd.1, ?_⟩
  have hpred := hd.2
  cases hsel : d.selector with
  | none =>
    rw [hsel] at hpred
    simp at hpred
  | some str =>
    rw [hsel] at hpred
    have hpred2 : ((⟨none, A⟩ :: srest : List CssSelector).any
        (fun sel => specSelectorApi.matcherMatch (specSelectorApi.parse str) sel)) =
        true := hpred
    show ((⟨e, A⟩ :: srest : List CssSelector).any
      (fun sel => specSelectorApi.matcherMatch (specSelectorApi.parse str) sel)) = true
    simp only [List.any_cons, Bool.or_eq_true] at hpred2 ⊢
    rcases hpred2 with hhead | htail
    · exact Or.inl (matcherMatch_mono _ e A hhead)
    · exact Or.inr htail

/-- The serialized attribute string of a host node is empty or starts with
an opening bracket. -/
theorem serialized_attrs_shape (host : HostNode) :
    (joinStrings ((getAttributes host).map toAttributeString)).toList = [] ∨
      ∃ tail,
        (joinStrings ((getAttributes host).map toAttributeString)).toList = '[' :: tail := by
  cases hattrs : getAttributes host with
  | nil =>
    left
    rfl
  | cons a rest =>
    right
    refine ⟨(a.name ++ "=" ++ a.valueSpan.getD "" ++ "]").data ++
      (joinStrings (rest.map toAttributeString)).data, ?_⟩
    show ((toAttributeString a) ++ joinStrings (rest.map toAttributeString)).data =
      '[' :: ((a.name ++ "=" ++ a.valueSpan.getD "" ++ "]").data ++
        (joinStrings (rest.map toAttributeString)).data)
    have hb : ("[" : String).data = ['['] := rfl
    simp only [toAttributeString, String.data_append, hb, List.append_assoc,
      List.cons_append, List.nil_append]

/-- C2: with the spec-modelled selector capability, tag attribution
decomposes plain matching exclusively and exhaustively — the union of
`getDirectiveMatchesForElementTag` and the directives matching the
attributes-only compound selector equals the set of directives matching
the full compound selector `tagName + serialized attributes` — for every
host whose tag name contains no comma and no opening bracket. -/
theorem spec_c2_tag_attribution_exhaustive (host : HostNode)
    (directives : List DirectiveSymbol)
    (h1 : ',' ∉ (getNodeName host).toList) (h2 : '[' ∉ (getNodeName host).toList) :
    getDirectiveMatchesForElementTag specSelectorApi host directives ∪
      getDirectiveMatchesForSelector specSelectorApi directives
        (joinStrings ((getAttributes host).map toAttributeString)) =
      getDirectiveMatchesForSelector specSelectorApi directives
        (getNodeName host ++ joinStrings ((getAttributes host).map toAttributeString)) := by
  have hsub := matches_subset_of_tag (getNodeName host)
    (joinStrings ((getAttributes host).map toAttributeString)) h1 h2
    (serialized_attrs_shape host) directives
  ext d
  simp only [Finset.mem_union]
  constructor
  · rintro (hdiff | hwo)
    · exact (mem_difference.mp hdiff).1
    · exact hsub hwo
  · intro hall
    by_cases hwo : d ∈ getDirectiveMatchesForSelector specSelectorApi directives
      (joinStrings ((getAttributes host).map toAttributeString))
    · exact Or.inr hwo
    · exact Or.inl (mem_difference.mpr ⟨hall, hwo⟩)

/-- Witness for C2 on the spec example `<div myAttr [foo]="x">` with the
three candidate directives of the spec. -/
theorem spec_c2_tag_attribution_exhaustive_witness :
    getDirectiveMatchesForElementTag specSelectorApi
        (.element "div" [⟨"myAttr", none⟩] [⟨"foo", some "x"⟩])
        [⟨0, some "div[myAttr]"⟩, ⟨1, some "[myAttr]"⟩, ⟨2, some "[foo]"⟩] ∪
      getDirectiveMatchesForSelector specSelectorApi
        [⟨0, some "div[myAttr]"⟩, ⟨1, some "[myAttr]"⟩, ⟨2, some "[foo]"⟩]
        (joinStrings
          ((getAttributes (.element "div" [⟨"myAttr", none⟩] [⟨"foo", some "x"⟩])).map
            toAttributeString)) =
      getDirectiveMatchesForSelector specSelectorApi
        [⟨0, some "div[myAttr]"⟩, ⟨1, some "[myAttr]"⟩, ⟨2, some "[foo]"⟩]
        (getNodeName (.element "div" [⟨"myAttr", none⟩] [⟨"foo", some "x"⟩]) ++
          joinStrings
            ((getAttributes (.element "div" [⟨"myAttr", none⟩] [⟨"foo", some "x"⟩])).map
              toAttributeString)) :=
  spec_c2_tag_attribution_exhaustive
    (.element "div" [⟨"myAttr", none⟩] [⟨"foo", some "x"⟩])
    [⟨0, some "div[myAttr]"⟩, ⟨1, some "[myAttr]"⟩, ⟨2, some "[foo]"⟩]
    (by decide) (by decide)

/-- C4: external-mode location sorts the candidates with
`tsDeclarationSortComparator` — ascending lexicographic file name, and
within a file descending raw start offset — and returns the first class
declaration, in that order, whose template is non-null, skipping the
others; with no qualifying declaration the result is not-found (`none`,
since `findSome?` of no `some` is `none`). -/
theorem spec_c4_external_mode (fileName : String) (compiler : NgCompiler) :
    (∀ a b : Declaration,
      (tsDeclarationSortComparator a b < 0 ↔
        a.fileName < b.fileName ∨ (a.fileName = b.fileName ∧ b.pos < a.pos)) ∧
      (tsDeclarationSortComparator a b = 0 ↔
        a.fileName = b.fileName ∧ b.pos = a.pos)) ∧
    ((compiler.getComponentsWithTemplateFile fileName).mergeSort
        (fun a b => tsDeclarationSortComparator a b ≤ 0)).Perm
      (compiler.getComponentsWithTemplateFile fileName) ∧
    ((compiler.getComponentsWithTemplateFile fileName).mergeSort
        (fun a b => tsDeclarationSortComparator a b ≤ 0)).Pairwise
      (fun a b => a.fileName < b.fileName ∨ (a.fileName = b.fileName ∧ b.pos ≤ a.pos)) ∧
    getFirstComponentForTemplateFile fileName compiler =
      ((compiler.getComponentsWithTemplateFile fileName).mergeSort
          (fun a b => tsDeclarationSortComparator a b ≤ 0)).findSome?
        (fun c =>
          if c.isClass then (compiler.getTemplate c).map (fun t => ⟨t, c⟩) else none) := by
  refine ⟨?_, List.mergeSort_perm _ _, ?_, findFirstTemplate_eq_findSome _ _⟩
  · intro a b
    constructor
    · unfold tsDeclarationSortComparator
      rcases lt_trichotomy a.fileName b.fileName with h | h | h
      · rw [if_pos h]
        simp [h]
      · rw [if_neg (by rw [h]; exact lt_irrefl _), if_neg (by rw [h]; exact lt_irrefl _)]
        rw [sub_neg]
        constructor
        · intro hlt
          exact Or.inr ⟨h, hlt⟩
        · rintro (hlt | ⟨_, hlt⟩)
          · exact absurd hlt (by rw [h]; exact lt_irrefl _)
          · exact hlt
      · rw [if_neg (not_lt.mpr (le_of_lt h)), if_pos h]
        constructor
        · intro h1
          norm_num at h1
        · rintro (hlt | ⟨heq, _⟩)
          · exact absurd hlt (not_lt.mpr (le_of_lt h))
          · exact absurd heq (ne_of_gt h)
    · unfold tsDeclarationSortComparator
      rcases lt_trichotomy a.fileName b.fileName with h | h | h
      · rw [if_pos h]
        constructor
        · intro h1
          norm_num at h1
        · rintro ⟨heq, _⟩
          exact absurd heq (ne_of_lt h)
      · rw [if_neg (by rw [h]; exact lt_irrefl _), if_neg (by rw [h]; exact lt_irrefl _)]
        rw [sub_eq_zero]
        exact ⟨fun hp => ⟨h, hp⟩, fun hp => hp.2⟩
      · rw [if_neg (not_lt.mpr (le_of_lt h)), if_pos h]
        constructor
        · intro h1
          norm_num at h1
        · rintro ⟨heq, _⟩
          exact absurd heq (ne_of_gt h)
  · have hs := @List.sorted_mergeSort Declaration
      (fun a b : Declaration => decide (tsDeclarationSortComparator a b ≤ 0))
      (fun x y z hxy hyz => by
        simp only [decide_eq_true_eq] at *
        exact tsDeclarationSortComparator_trans x y z hxy hyz)
      (fun x y => by
        simp only [Bool.or_eq_true, decide_eq_true_eq]
        exact tsDeclarationSortComparator_total x y)
      (compiler.getComponentsWithTemplateFile fileName)
    refine hs.imp ?_
    intro a b hab
    simp only [decide_eq_true_eq] at hab
    exact (tsDeclarationSortComparator_le_zero a b).mp hab

